import Mathlib

/-!
# Verification of the remark-code-snippets transform

Shallow embedding of `packages/code-snippets/src/index.ts`.

Modelling conventions:
* JS strings are modelled as their character lists (`Str := List Char`).
* POSIX path semantics are assumed for `path.resolve` (the bases passed to it
  in the source — alias base paths and the document directory — are absolute
  paths, per the configuration invariant).
* The filesystem (`fs.existsSync`), the ESM parser for import nodes, the
  source-module parser (`fs.readFileSync` + `acorn.parse`) and the formatter
  (`prettier.format`) are external capabilities, modelled as function
  parameters carried in an environment record.
* JS whitespace (`\s`, `trim`) is modelled by `Char.isWhitespace`.
-/

namespace RCS

/-- JS strings, modelled as character lists. -/
abbrev Str := List Char

/-- Character list of a Lean string literal. -/
def str (s : String) : Str := s.data

/-- `s.startsWith(p)` on character lists. -/
def startsWithStr : Str → Str → Bool
  | _, [] => true
  | [], _ :: _ => false
  | c :: cs, p :: ps => c == p && startsWithStr cs ps

/-! ## POSIX path model (`path.resolve` for absolute bases) -/

/-- Split a character list at `'/'` separators (like `String.prototype.split('/')`). -/
def splitSlash : Str → List Str
  | [] => [[]]
  | c :: rest =>
    if c = '/' then [] :: splitSlash rest
    else
      match splitSlash rest with
      | s :: ss => (c :: s) :: ss
      | [] => [[c]]

/-- Join segments with `'/'` separators (inverse of `splitSlash`). -/
def joinSlash : List Str → Str
  | [] => []
  | s :: rest =>
    match rest with
    | [] => s
    | _ :: _ => s ++ '/' :: joinSlash rest

/-- One step of POSIX path normalisation: drop empty and `.` segments,
let `..` pop the previous segment. -/
def stepSeg (acc : List Str) (seg : Str) : List Str :=
  if seg = [] ∨ seg = ['.'] then acc
  else if seg = ['.', '.'] then acc.dropLast
  else acc ++ [seg]

/-- Normalise an absolute POSIX path (Node's `path.normalize` on `/`-rooted input). -/
def normalizeAbs (p : Str) : Str :=
  '/' :: joinSlash ((splitSlash p).foldl stepSeg [])

/-- Node's `path.resolve(base, p)` where `base` is an absolute path:
an absolute `p` wins outright, otherwise `p` is joined onto `base`;
the result is normalised. -/
def pathResolve (base p : Str) : Str :=
  if p.head? = some '/' then normalizeAbs p else normalizeAbs (base ++ '/' :: p)

/-! ## Module path resolver (`resolveModulePath` in the source) -/

/-- Decidable equality for `Except`, used to evaluate concrete witnesses. -/
instance {e a : Type} [DecidableEq e] [DecidableEq a] : DecidableEq (Except e a) := fun x y =>
  match x, y with
  | Except.ok u, Except.ok v =>
    match decEq u v with
    | isTrue h => isTrue (h ▸ rfl)
    | isFalse h => isFalse (fun hh => h (Except.ok.inj hh))
  | Except.error u, Except.error v =>
    match decEq u v with
    | isTrue h => isTrue (h ▸ rfl)
    | isFalse h => isFalse (fun hh => h (Except.error.inj hh))
  | Except.ok _, Except.error _ => isFalse (fun hh => Except.noConfusion hh)
  | Except.error _, Except.ok _ => isFalse (fun hh => Except.noConfusion hh)

/-- The error thrown when no probed candidate exists: it carries the original
specifier and every probed path (the Chinese message in the source lists both). -/
structure ResolutionError where
  specifier : Str
  probed : List Str
deriving DecidableEq, Repr

/-- The alias scan of `resolveModulePath`: first alias (in declaration order)
such that the specifier starts with `alias + "/"`; the `break` in the source
is the first-match semantics of `find?`. -/
def findAlias (aliases : List (Str × Str)) (sourcePath : Str) : Option (Str × Str) :=
  aliases.find? (fun q => startsWithStr sourcePath (q.1 ++ ['/']))

/-- The base-path computation of `resolveModulePath`: alias substitution when an
alias matches (`path.resolve(aliasPath, sourcePath.replace(alias + "/", ""))`,
where the replaced occurrence is the prefix), otherwise — detected by the
`basePath === sourcePath` sentinel — resolution relative to the document's
directory. -/
def resolveBase (aliases : List (Str × Str)) (dirname sourcePath : Str) : Str :=
  let basePath :=
    match findAlias aliases sourcePath with
    | some (a, ap) => pathResolve ap (sourcePath.drop (a.length + 1))
    | none => sourcePath
  if basePath = sourcePath then pathResolve dirname sourcePath else basePath

/-- `resolveModulePath`: alias/relative base path, then extension probing by
string concatenation in list order; first existing candidate wins, otherwise
a `ResolutionError` listing every probed path. -/
def resolveModulePath (aliases : List (Str × Str)) (extensions : List Str)
    (fsExists : Str → Bool) (dirname sourcePath : Str) : Except ResolutionError Str :=
  let basePath := resolveBase aliases dirname sourcePath
  match extensions.find? (fun ext => fsExists (basePath ++ ext)) with
  | some ext => Except.ok (basePath ++ ext)
  | none => Except.error ⟨sourcePath, extensions.map (fun ext => basePath ++ ext)⟩

/-- The default extension list of `defaultOptions`. -/
def defaultExtensions : List Str :=
  [str ".ts", str ".tsx", str ".js", str ".jsx",
   str "/index.ts", str "/index.tsx", str "/index.js", str "/index.jsx"]

/-! ## Path lemmas -/

theorem splitSlash_ne_nil (cs : Str) : splitSlash cs ≠ [] := by
  cases cs with
  | nil => simp [splitSlash]
  | cons c rest =>
    simp only [splitSlash]
    split
    · simp
    · split <;> simp

theorem mem_splitSlash_no_slash : ∀ (cs s : Str), s ∈ splitSlash cs → '/' ∉ s := by
  intro cs
  induction cs with
  | nil =>
    intro s hs
    simp only [splitSlash, List.mem_singleton] at hs
    simp [hs]
  | cons c rest ih =>
    intro s hs
    simp only [splitSlash] at hs
    by_cases hc : c = '/'
    · rw [if_pos hc] at hs
      rcases List.mem_cons.mp hs with h | h
      · simp [h]
      · exact ih s h
    · rw [if_neg hc] at hs
      cases hsplit : splitSlash rest with
      | nil => exact absurd hsplit (splitSlash_ne_nil rest)
      | cons t ts =>
        rw [hsplit] at hs
        rcases List.mem_cons.mp hs with h | h
        · subst h
          intro hmem
          rcases List.mem_cons.mp hmem with h2 | h2
          · exact hc h2.symm
          · exact ih t (by rw [hsplit]; exact List.mem_cons_self t ts) h2
        · exact ih s (by rw [hsplit]; exact List.mem_cons.mpr (Or.inr h))

theorem splitSlash_of_no_slash : ∀ (s : Str), '/' ∉ s → splitSlash s = [s] := by
  intro s
  induction s with
  | nil => intro _; rfl
  | cons c cs ih =>
    intro h
    have hc : ¬ c = '/' := fun hh => h (by simp [hh])
    simp only [splitSlash, if_neg hc]
    rw [ih (fun hm => h (List.mem_cons.mpr (Or.inr hm)))]

theorem splitSlash_append : ∀ (s t : Str), '/' ∉ s →
    splitSlash (s ++ '/' :: t) = s :: splitSlash t := by
  intro s
  induction s with
  | nil => intro t _; simp [splitSlash]
  | cons c cs ih =>
    intro t h
    have hc : ¬ c = '/' := fun hh => h (by simp [hh])
    have hcs : '/' ∉ cs := fun hm => h (List.mem_cons.mpr (Or.inr hm))
    simp only [List.cons_append, splitSlash, List.append_eq, if_neg hc, ih t hcs]

theorem joinSlash_cons₂ (s t : Str) (ts : List Str) :
    joinSlash (s :: t :: ts) = s ++ '/' :: joinSlash (t :: ts) := rfl

theorem splitSlash_joinSlash : ∀ (segs : List Str), segs ≠ [] →
    (∀ s ∈ segs, '/' ∉ s) → splitSlash (joinSlash segs) = segs := by
  intro segs
  induction segs with
  | nil => intro h _; exact absurd rfl h
  | cons s rest ih =>
    intro _ hall
    cases rest with
    | nil =>
      simp only [joinSlash]
      exact splitSlash_of_no_slash s (hall s (List.mem_cons_self s []))
    | cons t ts =>
      rw [joinSlash_cons₂, splitSlash_append s _ (hall s (List.mem_cons_self _ _))]
      rw [ih (by simp) (fun x hx => hall x (List.mem_cons.mpr (Or.inr hx)))]

theorem mem_foldl_stepSeg : ∀ (xs acc : List Str) (s : Str),
    s ∈ List.foldl stepSeg acc xs →
    s ∈ acc ∨ (s ∈ xs ∧ s ≠ [] ∧ s ≠ ['.'] ∧ s ≠ ['.', '.']) := by
  intro xs
  induction xs with
  | nil => intro acc s h; exact Or.inl h
  | cons x xs ih =>
    intro acc s h
    simp only [List.foldl_cons] at h
    rcases ih (stepSeg acc x) s h with h2 | h2
    · unfold stepSeg at h2
      split at h2
      · exact Or.inl h2
      · split at h2
        · exact Or.inl ((List.dropLast_sublist _).subset h2)
        · rcases List.mem_append.mp h2 with h3 | h3
          · exact Or.inl h3
          · rename_i hnotdot hnotdd
            have hx : s = x := List.mem_singleton.mp h3
            subst hx
            refine Or.inr ⟨List.mem_cons_self _ _, ?_, ?_, hnotdd⟩
            · intro hh; exact hnotdot (Or.inl hh)
            · intro hh; exact hnotdot (Or.inr hh)
    · exact Or.inr ⟨List.mem_cons.mpr (Or.inr h2.1), h2.2⟩

theorem foldl_stepSeg_of_good : ∀ (segs : List Str),
    (∀ s ∈ segs, s ≠ [] ∧ s ≠ ['.'] ∧ s ≠ ['.', '.']) →
    ∀ acc, List.foldl stepSeg acc segs = acc ++ segs := by
  intro segs
  induction segs with
  | nil => intro _ acc; simp
  | cons x xs ih =>
    intro hall acc
    obtain ⟨h1, h2, h3⟩ := hall x (List.mem_cons_self _ _)
    have hA : ¬ (x = [] ∨ x = ['.']) := by
      rintro (h | h)
      · exact h1 h
      · exact h2 h
    simp only [List.foldl_cons]
    have hstep : stepSeg acc x = acc ++ [x] := by
      unfold stepSeg
      rw [if_neg hA, if_neg h3]
    rw [hstep, ih (fun s hs => hall s (List.mem_cons.mpr (Or.inr hs)))]
    simp

theorem normalizeAbs_fixed (segs : List Str)
    (hgood : ∀ s ∈ segs, s ≠ [] ∧ s ≠ ['.'] ∧ s ≠ ['.', '.'])
    (hnoslash : ∀ s ∈ segs, '/' ∉ s) :
    normalizeAbs ('/' :: joinSlash segs) = '/' :: joinSlash segs := by
  unfold normalizeAbs
  have hsp : splitSlash ('/' :: joinSlash segs) = [] :: splitSlash (joinSlash segs) := by
    simp [splitSlash]
  rw [hsp]
  rcases segs with _ | ⟨a, as⟩
  · decide
  · rw [splitSlash_joinSlash (a :: as) (by simp) hnoslash]
    have h0 : stepSeg [] [] = [] := by simp [stepSeg]
    have hfold : List.foldl stepSeg [] ([] :: a :: as) = [] ++ a :: as := by
      rw [List.foldl_cons, h0]
      exact foldl_stepSeg_of_good (a :: as) hgood []
    rw [hfold]
    simp

theorem normalizeAbs_idem (p : Str) : normalizeAbs (normalizeAbs p) = normalizeAbs p := by
  have hgood : ∀ s ∈ (splitSlash p).foldl stepSeg [], s ≠ [] ∧ s ≠ ['.'] ∧ s ≠ ['.', '.'] := by
    intro s hs
    rcases mem_foldl_stepSeg _ _ _ hs with h | h
    · simp at h
    · exact h.2
  have hnoslash : ∀ s ∈ (splitSlash p).foldl stepSeg [], '/' ∉ s := by
    intro s hs
    rcases mem_foldl_stepSeg _ _ _ hs with h | h
    · simp at h
    · exact mem_splitSlash_no_slash p s h.1
  exact normalizeAbs_fixed _ hgood hnoslash

theorem pathResolve_head (base p : Str) : (pathResolve base p).head? = some '/' := by
  unfold pathResolve
  split <;> rfl

theorem pathResolve_of_abs (dir p : Str) (h : p.head? = some '/') :
    pathResolve dir p = normalizeAbs p := by
  unfold pathResolve
  rw [if_pos h]

theorem pathResolve_eq_normalizeAbs (base p : Str) :
    ∃ q, pathResolve base p = normalizeAbs q := by
  unfold pathResolve
  split
  · exact ⟨p, rfl⟩
  · exact ⟨base ++ '/' :: p, rfl⟩

theorem pathResolve_pathResolve (dir base p : Str) :
    pathResolve dir (pathResolve base p) = pathResolve base p := by
  obtain ⟨q, hq⟩ := pathResolve_eq_normalizeAbs base p
  rw [pathResolve_of_abs dir _ (pathResolve_head base p), hq, normalizeAbs_idem]

/-! ## Resolver lemmas -/

theorem find?_first {α : Type} (p : α → Bool) (pre : List α) (x : α) (post : List α)
    (hpre : ∀ y ∈ pre, p y = false) (hx : p x = true) :
    (pre ++ x :: post).find? p = some x := by
  induction pre with
  | nil => exact List.find?_cons_of_pos _ hx
  | cons y ys ih =>
    rw [List.cons_append, List.find?_cons_of_neg _ (by simp [hpre y (List.mem_cons_self _ _)])]
    exact ih (fun z hz => hpre z (List.mem_cons.mpr (Or.inr hz)))

theorem resolveBase_alias (aliases : List (Str × Str)) (dir sp a ap : Str)
    (h : findAlias aliases sp = some (a, ap)) :
    resolveBase aliases dir sp = pathResolve ap (sp.drop (a.length + 1)) := by
  simp only [resolveBase, h]
  by_cases heq : pathResolve ap (sp.drop (a.length + 1)) = sp
  · rw [if_pos heq]
    calc pathResolve dir sp
        = pathResolve dir (pathResolve ap (sp.drop (a.length + 1))) := by rw [heq]
      _ = pathResolve ap (sp.drop (a.length + 1)) := pathResolve_pathResolve dir ap _
  · rw [if_neg heq]

theorem resolveBase_noAlias (aliases : List (Str × Str)) (dir sp : Str)
    (h : findAlias aliases sp = none) :
    resolveBase aliases dir sp = pathResolve dir sp := by
  simp [resolveBase, h]

theorem resolveModulePath_ok_of_first (aliases : List (Str × Str)) (fs : Str → Bool)
    (dir sp : Str) (pre : List Str) (e : Str) (post : List Str)
    (hpre : ∀ e2 ∈ pre, fs (resolveBase aliases dir sp ++ e2) = false)
    (he : fs (resolveBase aliases dir sp ++ e) = true) :
    resolveModulePath aliases (pre ++ e :: post) fs dir sp
      = Except.ok (resolveBase aliases dir sp ++ e) := by
  simp only [resolveModulePath]
  rw [find?_first _ pre e post (fun x hx => hpre x hx) he]

theorem resolveModulePath_error_of_all_missing (aliases : List (Str × Str))
    (extensions : List Str) (fs : Str → Bool) (dir sp : Str)
    (hall : ∀ e ∈ extensions, fs (resolveBase aliases dir sp ++ e) = false) :
    resolveModulePath aliases extensions fs dir sp
      = Except.error ⟨sp, extensions.map (fun e => resolveBase aliases dir sp ++ e)⟩ := by
  simp only [resolveModulePath]
  rw [List.find?_eq_none.mpr (fun e he => by simp [hall e he])]

/-! ## Claims about the resolver -/

/-- C2: aliases are scanned in declaration order; the first alias whose key
followed by `/` is a prefix of the specifier rewrites it (the alias's base
path is resolved against the remainder) and the scan stops there; matching is
exactly `startsWith(alias + "/")`, never a mere-substring match; when no alias
matches, the unchanged specifier is resolved relative to the document's
directory. -/
theorem C2_alias_order_and_fallback :
    (∀ (pre : List (Str × Str)) (a ap : Str) (post : List (Str × Str)) (dir sp : Str),
        (∀ q ∈ pre, startsWithStr sp (q.1 ++ ['/']) = false) →
        startsWithStr sp (a ++ ['/']) = true →
        resolveBase (pre ++ (a, ap) :: post) dir sp
          = pathResolve ap (sp.drop (a.length + 1)))
    ∧ (∀ (aliases : List (Str × Str)) (dir sp : Str),
        (∀ q ∈ aliases, startsWithStr sp (q.1 ++ ['/']) = false) →
        resolveBase aliases dir sp = pathResolve dir sp) := by
  constructor
  · intro pre a ap post dir sp hpre hmatch
    exact resolveBase_alias _ _ _ _ _ (find?_first _ pre (a, ap) post hpre hmatch)
  · intro aliases dir sp hnone
    exact resolveBase_noAlias _ _ _
      (List.find?_eq_none.mpr (fun q hq => by simp [hnone q hq]))

/-- Witness for C2: the alias `@code` rewrites `@code/demo`; the specifier
`@codex/demo`, which contains `@code` only as a substring (no `/` after it),
falls through to resolution relative to the document directory. -/
theorem C2_witness :
    resolveBase [(str "@code", str "/lib")] (str "/doc") (str "@code/demo")
      = pathResolve (str "/lib") ((str "@code/demo").drop ((str "@code").length + 1))
    ∧ resolveBase [(str "@code", str "/lib")] (str "/doc") (str "@codex/demo")
      = pathResolve (str "/doc") (str "@codex/demo") := by
  refine ⟨?_, ?_⟩
  · exact C2_alias_order_and_fallback.1 [] (str "@code") (str "/lib") [] (str "/doc")
      (str "@code/demo") (by decide) (by decide)
  · exact C2_alias_order_and_fallback.2 _ (str "/doc") (str "@codex/demo") (by decide)

/-- C3: extension candidates are probed by string concatenation
`basePath ++ extension` in the exact order of the configured list, and the
first candidate that exists on the filesystem is returned; hence when two
candidates both exist, the earlier-listed extension is chosen. -/
theorem C3_extension_probe_order :
    ∀ (aliases : List (Str × Str)) (fs : Str → Bool) (dir sp : Str)
      (pre : List Str) (e : Str) (post : List Str),
      (∀ e2 ∈ pre, fs (resolveBase aliases dir sp ++ e2) = false) →
      fs (resolveBase aliases dir sp ++ e) = true →
      resolveModulePath aliases (pre ++ e :: post) fs dir sp
        = Except.ok (resolveBase aliases dir sp ++ e) :=
  fun aliases fs dir sp pre e post hpre he =>
    resolveModulePath_ok_of_first aliases fs dir sp pre e post hpre he

/-- Filesystem fixture for the C3 witness: both `X.ts` and `X/index.ts` exist. -/
def fsC3 : Str → Bool := fun p => p == str "/doc/X.ts" || p == str "/doc/X/index.ts"

/-- Witness for C3: with both `X.ts` and `X/index.ts` existing, the
earlier-listed `.ts` candidate is the one resolved. -/
theorem C3_witness :
    resolveModulePath [] [str ".ts", str "/index.ts"] fsC3 (str "/doc") (str "./X")
      = Except.ok (resolveBase [] (str "/doc") (str "./X") ++ str ".ts")
    ∧ fsC3 (resolveBase [] (str "/doc") (str "./X") ++ str "/index.ts") = true := by
  refine ⟨?_, by decide⟩
  exact C3_extension_probe_order [] fsC3 (str "/doc") (str "./X") [] (str ".ts")
    [str "/index.ts"] (by decide) (by decide)

/-- C6: when no probed candidate exists, resolution fails with an error that
names the original specifier and lists every probed candidate path
(`basePath ++ extension` for each configured extension). -/
theorem C6_error_names_specifier_and_probes :
    ∀ (aliases : List (Str × Str)) (extensions : List Str) (fs : Str → Bool) (dir sp : Str),
      (∀ e ∈ extensions, fs (resolveBase aliases dir sp ++ e) = false) →
      resolveModulePath aliases extensions fs dir sp
        = Except.error ⟨sp, extensions.map (fun e => resolveBase aliases dir sp ++ e)⟩ :=
  fun aliases exts fs dir sp hall =>
    resolveModulePath_error_of_all_missing aliases exts fs dir sp hall

/-- Witness for C6 on an empty filesystem and the default extension list. -/
theorem C6_witness :
    resolveModulePath [] defaultExtensions (fun _ => false) (str "/doc") (str "./missing")
      = Except.error ⟨str "./missing",
          defaultExtensions.map (fun e => resolveBase [] (str "/doc") (str "./missing") ++ e)⟩ :=
  C6_error_names_specifier_and_probes [] defaultExtensions (fun _ => false)
    (str "/doc") (str "./missing") (fun _ _ => rfl)

/-- C10: the resolver never probes the bare base path itself; even when the
base path names an existing file, resolution fails with a resolution error
unless some configured suffix appended to it also names an existing file. -/
theorem C10_bare_path_not_probed :
    ∀ (aliases : List (Str × Str)) (extensions : List Str) (fs : Str → Bool) (dir sp : Str),
      fs (resolveBase aliases dir sp) = true →
      (∀ e ∈ extensions, fs (resolveBase aliases dir sp ++ e) = false) →
      resolveModulePath aliases extensions fs dir sp
        = Except.error ⟨sp, extensions.map (fun e => resolveBase aliases dir sp ++ e)⟩ :=
  fun aliases exts fs dir sp _ hall =>
    resolveModulePath_error_of_all_missing aliases exts fs dir sp hall

/-- Filesystem fixture for the C10 witness: only `/doc/demo.ts` exists. -/
def fsC10 : Str → Bool := fun p => p == str "/doc/demo.ts"

/-- Witness for C10: the specifier `./demo.ts` already ends in its real
extension and `/doc/demo.ts` exists, yet resolution fails because only
suffixed candidates are probed. -/
theorem C10_witness :
    resolveModulePath [] defaultExtensions fsC10 (str "/doc") (str "./demo.ts")
      = Except.error ⟨str "./demo.ts",
          defaultExtensions.map (fun e => resolveBase [] (str "/doc") (str "./demo.ts") ++ e)⟩
    ∧ fsC10 (resolveBase [] (str "/doc") (str "./demo.ts")) = true := by
  refine ⟨?_, by decide⟩
  exact C10_bare_path_not_probed [] defaultExtensions fsC10 (str "/doc") (str "./demo.ts")
    (by decide) (by decide)

/-! ## The alias round-trip (C7) -/

/-- Modelled from the spec: the manual pre-substitution route of the
round-trip property — replace the alias prefix of the specifier by the
alias's base path textually, then resolve the resulting specifier as a
non-alias path (empty alias table) relative to the document's directory. -/
def manualAliasRoute (a ap : Str) (extensions : List Str) (fs : Str → Bool)
    (dir sp : Str) : Except ResolutionError Str :=
  resolveModulePath [] extensions fs dir (ap ++ sp.drop a.length)

theorem resolveModulePath_ok_iff_of_base_eq
    (aliases aliases2 : List (Str × Str)) (exts : List Str) (fs : Str → Bool)
    (dir dir2 sp sp2 : Str)
    (hbase : resolveBase aliases dir sp = resolveBase aliases2 dir2 sp2) :
    ∀ out, resolveModulePath aliases exts fs dir sp = Except.ok out
      ↔ resolveModulePath aliases2 exts fs dir2 sp2 = Except.ok out := by
  intro out
  simp only [resolveModulePath, hbase]
  rcases hf : exts.find? fun ext => fs (resolveBase aliases2 dir2 sp2 ++ ext) with _ | e
  · simp [hf]
  · simp [hf]

/-- C7 (amended): resolving a specifier through its (first) matching alias
yields the same resolved file path as manually pre-substituting the alias's
base path and resolving the result as a non-alias path relative to the
document's directory, provided the remainder after `alias + "/"` does not
itself begin with a path separator (and the alias base path is absolute, per
the alias-table invariant). -/
theorem C7_alias_roundtrip_amended :
    ∀ (aliases : List (Str × Str)) (extensions : List Str) (fs : Str → Bool)
      (dir a ap rest : Str),
      findAlias aliases (a ++ '/' :: rest) = some (a, ap) →
      ap.head? = some '/' →
      rest.head? ≠ some '/' →
      ∀ out : Str,
        resolveModulePath aliases extensions fs dir (a ++ '/' :: rest) = Except.ok out
          ↔ manualAliasRoute a ap extensions fs dir (a ++ '/' :: rest) = Except.ok out := by
  intro aliases exts fs dir a ap rest hfind hap hrest
  have hdrop1 : (a ++ '/' :: rest).drop (a.length + 1) = rest := by
    rw [List.append_cons]
    have hlen : (a ++ ['/']).length = a.length + 1 := by simp
    rw [← hlen, List.drop_left]
  have hdrop0 : (a ++ '/' :: rest).drop a.length = '/' :: rest := List.drop_left a ('/' :: rest)
  have hsubhead : (ap ++ '/' :: rest).head? = some '/' := by
    cases ap with
    | nil => simp at hap
    | cons c cp => simpa using hap
  have hbase : resolveBase aliases dir (a ++ '/' :: rest)
      = resolveBase [] dir (ap ++ (a ++ '/' :: rest).drop a.length) := by
    rw [resolveBase_alias aliases dir _ a ap hfind, hdrop1, hdrop0]
    rw [resolveBase_noAlias [] dir _ rfl]
    rw [pathResolve_of_abs dir _ hsubhead]
    unfold pathResolve
    rw [if_neg hrest]
  intro out
  exact resolveModulePath_ok_iff_of_base_eq aliases [] exts fs dir dir
    (a ++ '/' :: rest) (ap ++ (a ++ '/' :: rest).drop a.length) hbase out

/-- Filesystem fixture for C7: only `/lib/x.ts` exists. -/
def fsC7 : Str → Bool := fun p => p == str "/lib/x.ts"

/-- Witness for C7: for the well-formed specifier `@c/x` both routes agree
(and in fact resolve to `/lib/x.ts`). -/
theorem C7_witness :
    (resolveModulePath [(str "@c", str "/lib")] [str ".ts"] fsC7 (str "/doc")
        (str "@c" ++ '/' :: str "x") = Except.ok (str "/lib/x.ts")
      ↔ manualAliasRoute (str "@c") (str "/lib") [str ".ts"] fsC7 (str "/doc")
        (str "@c" ++ '/' :: str "x") = Except.ok (str "/lib/x.ts"))
    ∧ resolveModulePath [(str "@c", str "/lib")] [str ".ts"] fsC7 (str "/doc")
        (str "@c" ++ '/' :: str "x") = Except.ok (str "/lib/x.ts") :=
  ⟨C7_alias_roundtrip_amended [(str "@c", str "/lib")] [str ".ts"] fsC7 (str "/doc")
      (str "@c") (str "/lib") (str "x") (by decide) (by decide) (by decide)
      (str "/lib/x.ts"),
   by decide⟩

/-- Counterexample to C7 as stated: the specifier `@c//x` matches the alias
`@c`, yet the two routes disagree — the remainder `/x` is absolute, so
`path.resolve` discards the alias base path on the alias route (which then
fails to resolve), while the manually pre-substituted string `/lib//x`
normalises to `/lib/x` and resolves. -/
theorem C7_counterexample :
    startsWithStr (str "@c//x") (str "@c" ++ ['/']) = true
    ∧ resolveModulePath [(str "@c", str "/lib")] [str ".ts"] fsC7 (str "/doc") (str "@c//x")
        = Except.error ⟨str "@c//x", [str "/x.ts"]⟩
    ∧ manualAliasRoute (str "@c") (str "/lib") [str ".ts"] fsC7 (str "/doc") (str "@c//x")
        = Except.ok (str "/lib/x.ts") :=
  ⟨by decide, by decide, by decide⟩

/-! ## Export extractor (acorn AST fragment) -/

/-- Initializer expressions, as far as the extractor inspects them: a template
literal is its list of literal segments (the cooked `quasis` values) together
with the number of interpolated expressions; any other initializer is opaque. -/
inductive Expr where
  | templateLiteral (quasis : List Str) (numExprs : Nat)
  | otherExpr
deriving DecidableEq

/-- One declarator `d` of a variable declaration. -/
structure Declarator where
  idIsIdentifier : Bool
  name : Str
  init : Option Expr
deriving DecidableEq

/-- Module-level statements as far as the walk distinguishes them; the walker
reaches the declarators of both a bare `const` statement and an
`export const` statement (the base walker recurses through the export node). -/
inductive Stmt where
  | variableDeclaration (decls : List Declarator)
  | exportNamedVar (decls : List Declarator)
  | otherStmt
deriving DecidableEq

/-- A parsed module: its list of statements. -/
abbrev JsModule := List Stmt

/-- Declarators exposed to the `VariableDeclaration` visitor by one statement. -/
def stmtVarDecls : Stmt → List Declarator
  | .variableDeclaration ds => ds
  | .exportNamedVar ds => ds
  | .otherStmt => []

/-- The visitor's condition on a declarator: `d.id.type === 'Identifier' &&
d.id.name === varName && d.init?.type === 'TemplateLiteral'`. -/
def declIsMatch (varName : Str) (d : Declarator) : Bool :=
  d.idIsIdentifier && d.name == varName &&
    match d.init with
    | some (.templateLiteral _ _) => true
    | _ => false

/-- Concatenation of a list of strings (`join('')`). -/
def joinStrs : List Str → Str
  | [] => []
  | s :: rest => s ++ joinStrs rest

/-- The value the visitor assigns on a match:
`d.init.quasis.map(q => q.value.cooked).join('')`. -/
def declTemplateValue (d : Declarator) : Str :=
  match d.init with
  | some (.templateLiteral quasis _) => joinStrs quasis
  | _ => []

/-- The `foundCode` accumulator after walking the whole module: every matching
declarator overwrites the previously found value. -/
def foundCodeOf (varName : Str) (m : JsModule) : Option Str :=
  m.foldl
    (fun acc st =>
      (stmtVarDecls st).foldl
        (fun acc2 d => if declIsMatch varName d then some (declTemplateValue d) else acc2)
        acc)
    none

/-- The error thrown when `foundCode` is falsy after the walk. -/
structure ExtractionError where
  filePath : Str
  varName : Str
deriving DecidableEq

/-- The extractor: the walk followed by `if (!foundCode) throw ...`; the JS
falsiness test treats the empty string like `null`. -/
def extractSnippet (filePath varName : Str) (m : JsModule) : Except ExtractionError Str :=
  match foundCodeOf varName m with
  | none => Except.error ⟨filePath, varName⟩
  | some code => if code = [] then Except.error ⟨filePath, varName⟩ else Except.ok code

/-- All declarators of a module, in walk order. -/
def moduleDecls : JsModule → List Declarator
  | [] => []
  | st :: rest => stmtVarDecls st ++ moduleDecls rest

/-- The last declarator matching the visitor's condition, if any. -/
def lastMatchDecl (varName : Str) (m : JsModule) : Option Declarator :=
  (moduleDecls m).reverse.find? (declIsMatch varName)

/-- The concatenated literal value of the last matching declarator, if any. -/
def lastMatchValue (varName : Str) (m : JsModule) : Option Str :=
  (lastMatchDecl varName m).map declTemplateValue

/-! ## Extractor lemmas -/

theorem foldl_overwrite {α : Type} (p : α → Bool) (v : α → Str) :
    ∀ (ds : List α) (acc : Option Str),
      ds.foldl (fun acc2 d => if p d then some (v d) else acc2) acc
        = match ds.reverse.find? p with
          | some d => some (v d)
          | none => acc := by
  intro ds
  induction ds using List.reverseRecOn with
  | nil => intro acc; rfl
  | append_singleton ds d ih =>
    intro acc
    rw [List.foldl_append, List.reverse_append]
    simp only [List.foldl_cons, List.foldl_nil, List.reverse_singleton, List.singleton_append]
    by_cases hp : p d
    · rw [if_pos hp, List.find?_cons_of_pos _ hp]
    · rw [if_neg hp, List.find?_cons_of_neg _ (by simp [hp]), ih acc]

theorem foundCodeOf_eq_lastMatchValue (varName : Str) (m : JsModule) :
    foundCodeOf varName m = lastMatchValue varName m := by
  have hflat : ∀ (sts : List Stmt) (acc : Option Str),
      sts.foldl
        (fun acc st =>
          (stmtVarDecls st).foldl
            (fun acc2 d => if declIsMatch varName d then some (declTemplateValue d) else acc2)
            acc)
        acc
      = (moduleDecls sts).foldl
          (fun acc2 d => if declIsMatch varName d then some (declTemplateValue d) else acc2)
          acc := by
    intro sts
    induction sts with
    | nil => intro acc; rfl
    | cons st sts ih =>
      intro acc
      simp only [List.foldl_cons, moduleDecls, List.foldl_append, ih]
  unfold foundCodeOf lastMatchValue lastMatchDecl
  rw [hflat]
  rw [foldl_overwrite (declIsMatch varName) declTemplateValue (moduleDecls m) none]
  cases (moduleDecls m).reverse.find? (declIsMatch varName) <;> rfl

/-! ## Claims about the extractor -/

/-- C1 (amended): the walk has last-match-overwrite semantics — the value it
finds is the concatenated literal value of the last declarator binding the
target name to a template literal; extraction returns that value when it is
non-empty, and fails with the not-found extraction error when it is the empty
string, because the JS falsiness test conflates the empty concatenation with
no match at all. -/
theorem C1_last_match_overwrite_amended :
    ∀ (filePath varName : Str) (m : JsModule) (s : Str),
      lastMatchValue varName m = some s →
      extractSnippet filePath varName m
        = if s = [] then Except.error ⟨filePath, varName⟩ else Except.ok s := by
  intro fp v m s h
  unfold extractSnippet
  rw [foundCodeOf_eq_lastMatchValue, h]

/-- Module fixture for the C1 witness: two declarators bind `foo`; the later
one has literal value `bb2`. -/
def mC1w : JsModule :=
  [Stmt.variableDeclaration [⟨true, str "foo", some (Expr.templateLiteral [str "aa"] 0)⟩],
   Stmt.variableDeclaration [⟨true, str "foo", some (Expr.templateLiteral [str "b", str "b2"] 0)⟩]]

/-- Witness for C1: the later declarator's concatenated value wins. -/
theorem C1_witness :
    extractSnippet (str "/f.ts") (str "foo") mC1w
      = if str "bb2" = [] then Except.error ⟨str "/f.ts", str "foo"⟩
        else Except.ok (str "bb2") :=
  C1_last_match_overwrite_amended (str "/f.ts") (str "foo") mC1w (str "bb2") (by decide)

/-- Module fixture for the C1 counterexample: the last matching declarator has
an empty template literal. -/
def mC1c : JsModule :=
  [Stmt.variableDeclaration [⟨true, str "foo", some (Expr.templateLiteral [str "abc"] 0)⟩],
   Stmt.variableDeclaration [⟨true, str "foo", some (Expr.templateLiteral [[]] 0)⟩]]

/-- Counterexample to C1 as stated: the last matching declarator's
concatenated literal value is the empty string, but the extractor does not
return it — it throws the not-found extraction error instead. -/
theorem C1_counterexample :
    lastMatchValue (str "foo") mC1c = some []
    ∧ extractSnippet (str "/f.ts") (str "foo") mC1c
        = Except.error ⟨str "/f.ts", str "foo"⟩ :=
  ⟨by decide, rfl⟩

/-- C5 (amended): when the last matching declarator's initializer is a
template literal with interpolated expression placeholders, extraction ignores
the interpolations and returns the concatenation of the literal segments
alone, provided that concatenation is non-empty; when every literal segment is
empty, the falsy empty string makes extraction fail instead. -/
theorem C5_interpolation_dropped_amended :
    ∀ (filePath varName : Str) (m : JsModule) (d : Declarator)
      (quasis : List Str) (numExprs : Nat),
      lastMatchDecl varName m = some d →
      d.init = some (Expr.templateLiteral quasis numExprs) →
      0 < numExprs →
      joinStrs quasis ≠ [] →
      extractSnippet filePath varName m = Except.ok (joinStrs quasis) := by
  intro fp v m d quasis n hd hinit _ hne
  have hval : lastMatchValue v m = some (joinStrs quasis) := by
    unfold lastMatchValue
    rw [hd]
    simp [declTemplateValue, hinit]
  unfold extractSnippet
  rw [foundCodeOf_eq_lastMatchValue, hval]
  exact if_neg hne

/-- Module fixture for the C5 witness: `foo` bound to a template literal with
literal segments `a`, `b` around one interpolated expression. -/
def mC5w : JsModule :=
  [Stmt.variableDeclaration [⟨true, str "foo", some (Expr.templateLiteral [str "a", str "b"] 1)⟩]]

/-- Witness for C5: the interpolated expression is dropped and the literal
segments are concatenated. -/
theorem C5_witness :
    extractSnippet (str "/f.ts") (str "foo") mC5w = Except.ok (joinStrs [str "a", str "b"]) :=
  C5_interpolation_dropped_amended (str "/f.ts") (str "foo") mC5w
    ⟨true, str "foo", some (Expr.templateLiteral [str "a", str "b"] 1)⟩
    [str "a", str "b"] 1 (by decide) rfl (by decide) (by decide)

/-- Module fixture for the C5 counterexample: `foo` bound to a template whose
only content is one interpolated expression (both literal segments empty). -/
def mC5c : JsModule :=
  [Stmt.variableDeclaration [⟨true, str "foo", some (Expr.templateLiteral [[], []] 1)⟩]]

/-- Counterexample to C5 as stated: a matching declarator whose template
literal consists of interpolation only; the claim says extraction does not
fail, but the code throws the extraction error because the concatenation of
the literal segments is the (falsy) empty string. -/
theorem C5_counterexample :
    lastMatchDecl (str "foo") mC5c
      = some ⟨true, str "foo", some (Expr.templateLiteral [[], []] 1)⟩
    ∧ extractSnippet (str "/f.ts") (str "foo") mC5c
        = Except.error ⟨str "/f.ts", str "foo"⟩ :=
  ⟨by decide, rfl⟩

/-- C9 (amended): the walk does not require the `export` keyword — a module
with a bare variable declaration yields exactly the same extraction result as
the same module with that declaration carried by `export const`; in
particular, extraction on the bare form succeeds with the literal value
whenever the last match's value is non-empty, even though the failure
diagnostic speaks of a missing `export const`. -/
theorem C9_export_keyword_irrelevant_amended :
    ∀ (filePath varName : Str) (pre : JsModule) (ds : List Declarator) (post : JsModule),
      (extractSnippet filePath varName (pre ++ Stmt.variableDeclaration ds :: post)
        = extractSnippet filePath varName (pre ++ Stmt.exportNamedVar ds :: post))
      ∧ (∀ s : Str,
          lastMatchValue varName (pre ++ Stmt.variableDeclaration ds :: post) = some s →
          s ≠ [] →
          extractSnippet filePath varName (pre ++ Stmt.variableDeclaration ds :: post)
            = Except.ok s) := by
  intro fp v pre ds post
  constructor
  · have hmods : moduleDecls (pre ++ Stmt.variableDeclaration ds :: post)
        = moduleDecls (pre ++ Stmt.exportNamedVar ds :: post) := by
      induction pre with
      | nil => rfl
      | cons st sts ih => simp only [List.cons_append, moduleDecls, List.append_eq, ih]
    unfold extractSnippet
    rw [foundCodeOf_eq_lastMatchValue, foundCodeOf_eq_lastMatchValue]
    unfold lastMatchValue lastMatchDecl
    rw [hmods]
  · intro s hs hne
    unfold extractSnippet
    rw [foundCodeOf_eq_lastMatchValue, hs]
    exact if_neg hne

/-- Declarator fixture for the C9 witness. -/
def dsC9 : List Declarator := [⟨true, str "foo", some (Expr.templateLiteral [str "zz"] 0)⟩]

/-- Witness for C9: a bare `const foo` extracts the same as `export const foo`,
and the extraction succeeds with the literal value. -/
theorem C9_witness :
    (extractSnippet (str "/f.ts") (str "foo") ([] ++ Stmt.variableDeclaration dsC9 :: [])
      = extractSnippet (str "/f.ts") (str "foo") ([] ++ Stmt.exportNamedVar dsC9 :: []))
    ∧ extractSnippet (str "/f.ts") (str "foo") ([] ++ Stmt.variableDeclaration dsC9 :: [])
      = Except.ok (str "zz") :=
  ⟨(C9_export_keyword_irrelevant_amended (str "/f.ts") (str "foo") [] dsC9 []).1,
   (C9_export_keyword_irrelevant_amended (str "/f.ts") (str "foo") [] dsC9 []).2
     (str "zz") (by decide) (by decide)⟩

/-- Module fixture for the C9 counterexample: a bare declarator whose template
literal is empty. -/
def mC9c : JsModule :=
  [Stmt.variableDeclaration [⟨true, str "foo", some (Expr.templateLiteral [[]] 0)⟩]]

/-- Counterexample to C9 as stated: for this non-exported declarator with a
template-literal initializer the claim asserts extraction succeeds, but the
code throws the extraction error (and does so equally for the exported form). -/
theorem C9_counterexample :
    extractSnippet (str "/f.ts") (str "foo") mC9c
      = Except.error ⟨str "/f.ts", str "foo"⟩
    ∧ extractSnippet (str "/f.ts") (str "foo")
        [Stmt.exportNamedVar [⟨true, str "foo", some (Expr.templateLiteral [[]] 0)⟩]]
      = Except.error ⟨str "/f.ts", str "foo"⟩ :=
  ⟨rfl, rfl⟩

/-! ## Document transform -/

/-- One import specifier: whether it is a *named* specifier
(`ImportSpecifier`, as opposed to default/namespace) and its local name. -/
structure ImportSpec where
  isImportSpecifier : Bool
  localName : Str
deriving DecidableEq

/-- One import declaration of an import block: its specifiers and the source
module specifier string. -/
structure ImportDecl where
  specifiers : List ImportSpec
  source : Str
deriving DecidableEq

/-- Document tree nodes, as far as the transform distinguishes them. -/
inductive Node where
  | mdxjsEsm (value : Str)
  | code (lang : Option Str) (meta : Option Str) (value : Str)
  | otherNode
deriving DecidableEq

/-- Configuration and external capabilities of one transform run: the merged
options, `fs.existsSync`, reading-and-parsing a resolved module
(`fs.readFileSync` + `acorn.parse`, total because resolution guarantees
existence), `prettier.format` (`none` models a throw), and parsing an import
block's embedded source (`none` models a parse throw). -/
structure Env where
  aliases : List (Str × Str)
  extensions : List Str
  fsExists : Str → Bool
  readModule : Str → JsModule
  format : Str → Str → Option Str
  parseEsm : Str → Option (List ImportDecl)
  dirname : Str

/-- Bindings contributed by a parsed import block, in declaration order:
every named specifier maps its local name to the declaration's source. -/
def collectBindings : List ImportDecl → List (Str × Str)
  | [] => []
  | d :: rest =>
    (d.specifiers.filter (fun s => s.isImportSpecifier)).map (fun s => (s.localName, d.source))
      ++ collectBindings rest

/-- First pass of the transform: walk the `mdxjsEsm` nodes in order and build
the import map; a parse failure of any import block aborts (the source lets
the exception propagate before any code block is touched). -/
def buildImportMap (env : Env) : List Node → Option (List (Str × Str))
  | [] => some []
  | Node.mdxjsEsm v :: rest =>
    match env.parseEsm v with
    | none => none
    | some ds => (buildImportMap env rest).map (fun m => collectBindings ds ++ m)
  | _ :: rest => buildImportMap env rest

/-- Lookup with JS object-assignment semantics: the last write to a key wins. -/
def lookupLast (m : List (Str × Str)) (k : Str) : Option Str :=
  (m.reverse.find? (fun q => q.1 == k)).map (fun q => q.2)

/-- JS whitespace (`\s`, `trim`), ASCII model. -/
def jsWhitespace (c : Char) : Bool := c.isWhitespace

/-- The identifier character class `[a-zA-Z0-9_]` of the marker pattern. -/
def isWordChar (c : Char) : Bool := c.isAlpha || c.isDigit || c = '_'

/-- The literal `code=\x7b` that the `includes` guard and both marker patterns
start with. -/
def markerToken : Str := str "code=\x7b"

/-- `meta.includes('code=\x7b')`. -/
def containsMarkerToken : Str → Bool
  | [] => false
  | c :: cs => startsWithStr (c :: cs) markerToken || containsMarkerToken cs

/-- Match attempt of the extraction pattern `code=\x7b([a-zA-Z0-9_]+)\x7d` at the
head of the input, returning the captured identifier. -/
def matchMarkerAt (cs : Str) : Option Str :=
  if startsWithStr cs markerToken then
    let rest := cs.drop markerToken.length
    let w := rest.takeWhile isWordChar
    if w = [] then none
    else
      match rest.dropWhile isWordChar with
      | c :: _ => if c = '\x7d' then some w else none
      | [] => none
  else none

/-- Leftmost match of the extraction pattern over the whole metadata string
(`meta.match(...)`), returning the captured identifier. -/
def findMarker : Str → Option Str
  | [] => none
  | c :: cs =>
    match matchMarkerAt (c :: cs) with
    | some w => some w
    | none => findMarker cs

/-- Match attempt of the strip pattern `code=\x7b[^\x7d]+\x7d\s*` at the head of
the input, returning the remainder after the matched portion. -/
def matchStripAt (cs : Str) : Option Str :=
  if startsWithStr cs markerToken then
    let rest := cs.drop markerToken.length
    let body := rest.takeWhile (fun c => ¬ c = '\x7d')
    if body = [] then none
    else
      match rest.dropWhile (fun c => ¬ c = '\x7d') with
      | c :: rest3 => if c = '\x7d' then some (rest3.dropWhile jsWhitespace) else none
      | [] => none
  else none

/-- Replacement of the first occurrence of the strip pattern by the empty
string (`meta.replace(/code=\x7b[^\x7d]+\x7d\s*/, '')`). -/
def stripMarkerOnce : Str → Str
  | [] => []
  | c :: cs =>
    match matchStripAt (c :: cs) with
    | some rest => rest
    | none => c :: stripMarkerOnce cs

/-- JS `trim()` (ASCII whitespace model). -/
def trimStr (cs : Str) : Str :=
  ((cs.dropWhile jsWhitespace).reverse.dropWhile jsWhitespace).reverse

/-- `getParserForLang`: lower-cased language tag to formatter profile name;
unknown or absent tags default to `babel`. -/
def getParserForLang : Option Str → Str
  | none => str "babel"
  | some lang =>
    let l := lang.map Char.toLower
    if l = str "js" ∨ l = str "jsx" ∨ l = str "javascript" then str "babel"
    else if l = str "ts" ∨ l = str "tsx" ∨ l = str "typescript" then str "typescript"
    else if l = str "css" then str "css"
    else if l = str "scss" ∨ l = str "sass" then str "scss"
    else if l = str "html" ∨ l = str "xml" ∨ l = str "svg" then str "html"
    else if l = str "json" then str "json"
    else if l = str "md" ∨ l = str "markdown" then str "markdown"
    else if l = str "yaml" ∨ l = str "yml" then str "yaml"
    else if l = str "graphql" ∨ l = str "gql" then str "graphql"
    else str "babel"

/-- The fatal failure classes of the per-document transform. -/
inductive TransformError where
  | malformedImport
  | unresolvedReference (varName : Str)
  | resolution (e : ResolutionError)
  | extraction (e : ExtractionError)
deriving DecidableEq

/-- Formatting for a block with a language tag: `prettier.format` on the
trimmed snippet; a formatter throw is caught, a warning is logged, and the
trimmed raw snippet is used instead — the only recoverable failure. -/
def formatOrFallback (env : Env) (lang : Option Str) (code : Str) : Str :=
  match env.format (getParserForLang lang) (trimStr code) with
  | some formatted => formatted
  | none => trimStr code

/-- Processing of one code block's `(meta, value)` pair: the guard
(`!node.meta || !node.meta.includes(...)`, then the full pattern match), then
the import-map lookup with the falsiness test `if (!importPath)` (an absent
entry and an entry bound to the empty-string specifier both throw the
unresolved-reference error), module resolution, extraction, the value update
(`if (!node.lang)` — absent or empty-string language tag — takes the trimmed
raw snippet, otherwise formatted-or-fallback) and the marker strip plus trim
on the metadata. -/
def processCode (env : Env) (importMap : List (Str × Str))
    (lang : Option Str) (meta : Option Str) (value : Str) :
    Except TransformError (Option Str × Str) :=
  match meta with
  | none => Except.ok (none, value)
  | some m =>
    if containsMarkerToken m then
      match findMarker m with
      | none => Except.ok (some m, value)
      | some varName =>
        match lookupLast importMap varName with
        | none => Except.error (TransformError.unresolvedReference varName)
        | some importPath =>
          if importPath = [] then Except.error (TransformError.unresolvedReference varName)
          else
            match resolveModulePath env.aliases env.extensions env.fsExists env.dirname importPath with
            | Except.error e => Except.error (TransformError.resolution e)
            | Except.ok absolutePath =>
              match extractSnippet absolutePath varName (env.readModule absolutePath) with
              | Except.error e => Except.error (TransformError.extraction e)
              | Except.ok code =>
                let newValue :=
                  match lang with
                  | none => trimStr code
                  | some l => if l = [] then trimStr code else formatOrFallback env lang code
                Except.ok (some (trimStr (stripMarkerOnce m)), newValue)
    else Except.ok (some m, value)

/-- Processing of one node: only code blocks are touched. -/
def processNode (env : Env) (importMap : List (Str × Str)) : Node → Except TransformError Node
  | Node.code lang meta value =>
    match processCode env importMap lang meta value with
    | Except.ok r => Except.ok (Node.code lang r.1 r.2)
    | Except.error e => Except.error e
  | n => Except.ok n

/-- The code-block pass: nodes are visited in order and mutated in place; a
thrown error stops the pass, leaving already-visited nodes mutated and the
remaining nodes untouched. The result is the document after the pass plus the
error, if any. -/
def runBlocks (env : Env) (importMap : List (Str × Str)) :
    List Node → List Node × Option TransformError
  | [] => ([], none)
  | n :: rest =>
    match processNode env importMap n with
    | Except.error e => (n :: rest, some e)
    | Except.ok n2 =>
      let result := runBlocks env importMap rest
      (n2 :: result.1, result.2)

/-- The whole per-document transform: the import pass (whose parse failure
aborts before any mutation), then the code-block pass. -/
def transformer (env : Env) (doc : List Node) : List Node × Option TransformError :=
  match buildImportMap env doc with
  | none => (doc, some TransformError.malformedImport)
  | some importMap => runBlocks env importMap doc

/-- The guard of the code visitor, as a predicate on the metadata: a block is
processed only when the metadata exists, contains the marker token, and the
full extraction pattern matches. -/
def hasMarker : Option Str → Bool
  | none => false
  | some m => containsMarkerToken m && (findMarker m).isSome

/-- A node carries no reference marker (true for non-code nodes). -/
def nodeNoMarker : Node → Bool
  | Node.code _ meta _ => !(hasMarker meta)
  | _ => true

/-! ## Transform lemmas -/

theorem matchMarkerAt_startsWith (cs w : Str) (h : matchMarkerAt cs = some w) :
    startsWithStr cs markerToken = true := by
  unfold matchMarkerAt at h
  cases hs : startsWithStr cs markerToken with
  | true => rfl
  | false => rw [hs] at h; simp at h

theorem findMarker_contains : ∀ (cs w : Str), findMarker cs = some w →
    containsMarkerToken cs = true := by
  intro cs
  induction cs with
  | nil => intro w h; exact absurd h (by simp [findMarker])
  | cons c cs ih =>
    intro w h
    unfold findMarker at h
    unfold containsMarkerToken
    cases hm : matchMarkerAt (c :: cs) with
    | some w2 =>
      rw [matchMarkerAt_startsWith _ _ hm]
      simp
    | none =>
      rw [hm] at h
      simp only [] at h
      rw [ih w h]
      simp

theorem processCode_skip (env : Env) (importMap : List (Str × Str))
    (lang : Option Str) (meta : Option Str) (value : Str)
    (h : hasMarker meta = false) :
    processCode env importMap lang meta value = Except.ok (meta, value) := by
  cases meta with
  | none => rfl
  | some m =>
    unfold processCode
    cases hcm : containsMarkerToken m with
    | false => simp [hcm]
    | true =>
      cases hfm : findMarker m with
      | some w => exact absurd h (by simp [hasMarker, hcm, hfm])
      | none => simp [hcm, hfm]

theorem runBlocks_cons_error (env : Env) (im : List (Str × Str)) (n : Node)
    (rest : List Node) (e : TransformError) (h : processNode env im n = Except.error e) :
    runBlocks env im (n :: rest) = (n :: rest, some e) := by
  unfold runBlocks
  rw [h]

theorem runBlocks_cons_ok (env : Env) (im : List (Str × Str)) (n : Node)
    (rest : List Node) (n2 : Node) (h : processNode env im n = Except.ok n2) :
    runBlocks env im (n :: rest)
      = (n2 :: (runBlocks env im rest).1, (runBlocks env im rest).2) := by
  show (match processNode env im n with
    | Except.error e => (n :: rest, some e)
    | Except.ok n2 =>
      let result := runBlocks env im rest
      (n2 :: result.1, result.2))
    = (n2 :: (runBlocks env im rest).1, (runBlocks env im rest).2)
  rw [h]

theorem runBlocks_id (env : Env) (importMap : List (Str × Str)) :
    ∀ (doc : List Node), (∀ n ∈ doc, nodeNoMarker n = true) →
      runBlocks env importMap doc = (doc, none) := by
  intro doc
  induction doc with
  | nil => intro _; rfl
  | cons n rest ih =>
    intro hall
    have hn : processNode env importMap n = Except.ok n := by
      cases n with
      | code lang meta value =>
        have hm : hasMarker meta = false := by
          have := hall _ (List.mem_cons_self _ _)
          simpa [nodeNoMarker] using this
        have hskip := processCode_skip env importMap lang meta value hm
        simp only [processNode, hskip]
      | mdxjsEsm v => rfl
      | otherNode => rfl
    rw [runBlocks_cons_ok _ _ _ _ _ hn,
      ih (fun x hx => hall x (List.mem_cons.mpr (Or.inr hx)))]

theorem runBlocks_none_iff (env : Env) (im : List (Str × Str)) :
    ∀ doc : List Node,
      ((runBlocks env im doc).2 = none ↔
        ∀ n ∈ doc, ∃ n2, processNode env im n = Except.ok n2) := by
  intro doc
  induction doc with
  | nil => simp [runBlocks]
  | cons n rest ih =>
    cases hp : processNode env im n with
    | error e =>
      rw [runBlocks_cons_error _ _ _ _ _ hp]
      constructor
      · intro h; simp at h
      · intro h
        obtain ⟨n2, hn2⟩ := h n (List.mem_cons_self _ _)
        rw [hp] at hn2
        exact absurd hn2 (by simp)
    | ok n2 =>
      rw [runBlocks_cons_ok _ _ _ _ _ hp]
      constructor
      · intro h x hx
        rcases List.mem_cons.mp hx with h1 | h1
        · exact ⟨n2, h1 ▸ hp⟩
        · exact ih.mp h x h1
      · intro h
        exact ih.mpr (fun x hx => h x (List.mem_cons.mpr (Or.inr hx)))

theorem runBlocks_error_at (env : Env) (im : List (Str × Str)) :
    ∀ (pre : List Node) (n : Node) (post : List Node) (e : TransformError),
      (∀ x ∈ pre, ∃ x2, processNode env im x = Except.ok x2) →
      processNode env im n = Except.error e →
      (runBlocks env im (pre ++ n :: post)).2 = some e := by
  intro pre
  induction pre with
  | nil =>
    intro n post e _ hn
    rw [List.nil_append, runBlocks_cons_error _ _ _ _ _ hn]
  | cons x xs ih =>
    intro n post e hpre hn
    obtain ⟨x2, hx2⟩ := hpre x (List.mem_cons_self _ _)
    rw [List.cons_append, runBlocks_cons_ok _ _ _ _ _ hx2]
    exact ih n post e (fun y hy => hpre y (List.mem_cons.mpr (Or.inr hy))) hn

/-! ## Claims about the transform -/

/-- C8: a document in which no code block's metadata carries a reference
marker is left unchanged by the transform — every block fails the guard and
is passed through untouched; consequently, a second run on an
already-substituted document whose markers were all stripped by the first
pass is a no-op. -/
theorem C8_no_marker_no_op :
    ∀ (env : Env) (doc : List Node),
      (∀ n ∈ doc, nodeNoMarker n = true) →
      (transformer env doc).1 = doc := by
  intro env doc hall
  unfold transformer
  cases h : buildImportMap env doc with
  | none => rfl
  | some importMap =>
    show (runBlocks env importMap doc).1 = doc
    rw [runBlocks_id env importMap doc hall]

/-- Environment fixture for the C8 witness. -/
def envC8 : Env :=
  { aliases := [], extensions := [], fsExists := fun _ => false,
    readModule := fun _ => [], format := fun _ _ => none,
    parseEsm := fun _ => some [], dirname := str "/doc" }

/-- Document fixture for the C8 witness: code blocks without markers, one
ESM import block and an opaque node. -/
def docC8 : List Node :=
  [Node.mdxjsEsm (str "import x"),
   Node.code (some (str "ts")) (some (str "ts")) (str "v"),
   Node.code none none (str "w"),
   Node.otherNode]

/-- Witness for C8 on a concrete marker-free document. -/
theorem C8_witness : (transformer envC8 docC8).1 = docC8 :=
  C8_no_marker_no_op envC8 docC8 (by decide)

/-- C4: formatting is the only recoverable failure. A block with a language
tag whose formatting call throws still processes successfully, its value
becoming the trimmed raw extracted snippet (and its marker stripped); an
unresolved reference — an identifier whose import-map entry is missing or is
the falsy empty-string specifier — a resolution failure and an extraction
failure each fail the block with the corresponding fatal error; a malformed
ESM import aborts the whole transform before any mutation; a failing block aborts
the document pass with its error; and the transform completes without
aborting exactly when the import pass and every block succeed. -/
theorem C4_formatting_only_recoverable :
    (∀ (env : Env) (importMap : List (Str × Str))
        (lang m value varName importPath absolutePath code : Str),
        findMarker m = some varName →
        lookupLast importMap varName = some importPath →
        importPath ≠ [] →
        resolveModulePath env.aliases env.extensions env.fsExists env.dirname importPath
          = Except.ok absolutePath →
        extractSnippet absolutePath varName (env.readModule absolutePath) = Except.ok code →
        env.format (getParserForLang (some lang)) (trimStr code) = none →
        processCode env importMap (some lang) (some m) value
          = Except.ok (some (trimStr (stripMarkerOnce m)), trimStr code))
    ∧ (∀ (env : Env) (importMap : List (Str × Str)) (lang : Option Str) (m value varName : Str),
        findMarker m = some varName →
        (lookupLast importMap varName = none ∨ lookupLast importMap varName = some []) →
        processCode env importMap lang (some m) value
          = Except.error (TransformError.unresolvedReference varName))
    ∧ (∀ (env : Env) (importMap : List (Str × Str)) (lang : Option Str)
        (m value varName importPath : Str) (e : ResolutionError),
        findMarker m = some varName →
        lookupLast importMap varName = some importPath →
        importPath ≠ [] →
        resolveModulePath env.aliases env.extensions env.fsExists env.dirname importPath
          = Except.error e →
        processCode env importMap lang (some m) value
          = Except.error (TransformError.resolution e))
    ∧ (∀ (env : Env) (importMap : List (Str × Str)) (lang : Option Str)
        (m value varName importPath absolutePath : Str) (e : ExtractionError),
        findMarker m = some varName →
        lookupLast importMap varName = some importPath →
        importPath ≠ [] →
        resolveModulePath env.aliases env.extensions env.fsExists env.dirname importPath
          = Except.ok absolutePath →
        extractSnippet absolutePath varName (env.readModule absolutePath) = Except.error e →
        processCode env importMap lang (some m) value
          = Except.error (TransformError.extraction e))
    ∧ (∀ (env : Env) (doc : List Node),
        buildImportMap env doc = none →
        transformer env doc = (doc, some TransformError.malformedImport))
    ∧ (∀ (env : Env) (doc : List Node) (im : List (Str × Str)) (pre : List Node)
        (n : Node) (post : List Node) (e : TransformError),
        buildImportMap env doc = some im →
        doc = pre ++ n :: post →
        (∀ x ∈ pre, ∃ x2, processNode env im x = Except.ok x2) →
        processNode env im n = Except.error e →
        (transformer env doc).2 = some e)
    ∧ (∀ (env : Env) (doc : List Node) (im : List (Str × Str)),
        buildImportMap env doc = some im →
        ((transformer env doc).2 = none ↔
          ∀ n ∈ doc, ∃ n2, processNode env im n = Except.ok n2)) := by
  refine ⟨?_, ?_, ?_, ?_, ?_, ?_, ?_⟩
  · intro env im lang m value varName importPath absolutePath code hf hl hp hr he hfmt
    simp [processCode, findMarker_contains m varName hf, hf, hl, hp, hr, he,
      formatOrFallback, hfmt]
  · intro env im lang m value varName hf hl
    rcases hl with hl | hl
    · simp [processCode, findMarker_contains m varName hf, hf, hl]
    · simp [processCode, findMarker_contains m varName hf, hf, hl]
  · intro env im lang m value varName importPath e hf hl hp hr
    simp [processCode, findMarker_contains m varName hf, hf, hl, hp, hr]
  · intro env im lang m value varName importPath absolutePath e hf hl hp hr he
    simp [processCode, findMarker_contains m varName hf, hf, hl, hp, hr, he]
  · intro env doc h
    unfold transformer
    rw [h]
  · intro env doc im pre n post e him hdoc hpre hn
    subst hdoc
    unfold transformer
    rw [him]
    exact runBlocks_error_at env im pre n post e hpre hn
  · intro env doc im him
    unfold transformer
    rw [him]
    exact runBlocks_none_iff env im doc

/-- Environment fixture for the C4 witness: one resolvable module `demo.ts`
whose `foo` export holds `abc`, and a formatter that always throws. -/
def envC4 : Env :=
  { aliases := []
  , extensions := [str ".ts"]
  , fsExists := fun p => p == str "/doc/demo.ts"
  , readModule := fun _ =>
      [Stmt.variableDeclaration [⟨true, str "foo", some (Expr.templateLiteral [str "abc"] 0)⟩]]
  , format := fun _ _ => none
  , parseEsm := fun _ => some [{ specifiers := [⟨true, str "foo"⟩], source := str "./demo" }]
  , dirname := str "/doc" }

/-- Import-map fixture for the C4 witness. -/
def imC4 : List (Str × Str) := [(str "foo", str "./demo")]

/-- Metadata fixture for the C4 witness: `ts code=\x7bfoo\x7d`. -/
def metaC4 : Str := str "ts code=\x7bfoo\x7d"

/-- Witness for C4: the formatter throws, yet the block succeeds with the
trimmed raw snippet; with an empty import map the same block fails fatally
with the unresolved-reference error, and so does a binding to the falsy
empty-string specifier. -/
theorem C4_witness :
    (processCode envC4 imC4 (some (str "ts")) (some metaC4) (str "old")
      = Except.ok (some (trimStr (stripMarkerOnce metaC4)), trimStr (str "abc")))
    ∧ (processCode envC4 [] (some (str "ts")) (some metaC4) (str "old")
      = Except.error (TransformError.unresolvedReference (str "foo")))
    ∧ (processCode envC4 [(str "foo", [])] (some (str "ts")) (some metaC4) (str "old")
      = Except.error (TransformError.unresolvedReference (str "foo"))) :=
  ⟨C4_formatting_only_recoverable.1 envC4 imC4 (str "ts") metaC4 (str "old")
      (str "foo") (str "./demo") (str "/doc/demo.ts") (str "abc")
      (by decide) (by decide) (by decide) (by decide) (by decide) rfl,
   C4_formatting_only_recoverable.2.1 envC4 [] (some (str "ts")) metaC4 (str "old")
      (str "foo") (by decide) (Or.inl (by decide)),
   C4_formatting_only_recoverable.2.1 envC4 [(str "foo", [])] (some (str "ts")) metaC4 (str "old")
      (str "foo") (by decide) (Or.inr (by decide))⟩

end RCS
